import Mathlib

/-!
Verification of the secure-linkage repository (data61/secure-p-signature-linkage).

The visible source is the demonstration driver src/secure-linkage.cc.  Its pure
helpers (mat_vec_prod, check_result, the Linmat construction) are embedded
directly.  The engine itself (seclink_init_ctx, seclink_encrypt_left,
seclink_encrypt_right, seclink_multiply, seclink_decrypt) is not under src/,
so those operations are modelled from the specification, as noted on each
definition.
-/

namespace Seclink

/-! ## Driver embeddings (from src/secure-linkage.cc) -/

/-- std::inner_product(begin(clk), end(clk), begin(row), 0L): the sum of
pointwise products, driven by the length of the first vector (here the
common length when both vectors are equally long). -/
def innerProd (xs ys : List Int) : Int :=
  (List.zipWith (fun a b => a * b) xs ys).sum

/-- The loop body of mat_vec_prod: for each clk, push the inner product with
row1 and then with row2 (src/secure-linkage.cc lines 26-29). -/
def mvpLoop (row1 row2 : List Int) : List (List Int) → List Int
  | [] => []
  | clk :: rest => innerProd clk row1 :: innerProd clk row2 :: mvpLoop row1 row2 rest

/-- mat_vec_prod (src/secure-linkage.cc lines 20-31): row1 = clks[0],
row2 = clks[1], then for each clk push its inner products with row1, row2.
Total embedding: the unchecked clks[0]/clks[1] accesses become getD. -/
def mat_vec_prod (clks : List (List Int)) : List Int :=
  mvpLoop (clks.getD 0 []) (clks.getD 1 []) clks

/-- inner_product with bounds tracking: reading clk[j] and row[j] for every
j < length clk is in bounds exactly when row is at least as long as clk. -/
def innerProdChecked (clk row : List Int) : Option Int :=
  if clk.length ≤ row.length then some (innerProd clk row) else none

/-- The loop of mat_vec_prod with bounds tracking for each access. -/
def mvpLoopChecked (row1 row2 : List Int) : List (List Int) → Option (List Int)
  | [] => some []
  | clk :: rest => do
    let a ← innerProdChecked clk row1
    let b ← innerProdChecked clk row2
    let tl ← mvpLoopChecked row1 row2 rest
    pure (a :: b :: tl)

/-- mat_vec_prod with bounds tracking: clks[0] and clks[1] are read
unconditionally, so fewer than two clks is out of bounds (none); otherwise
each inner_product access is tracked by mvpLoopChecked. -/
def mat_vec_prodChecked (clks : List (List Int)) : Option (List Int) :=
  match clks with
  | row1 :: row2 :: _ => mvpLoopChecked row1 row2 clks
  | _ => none

/-- The dimension-error line printed by check_result when sizes differ
(src/secure-linkage.cc lines 92-96). -/
def dimErrorMsg (pre : String) (esz osz : Nat) : String :=
  pre ++ ": dimension error: expected size " ++ toString esz
      ++ ", got size " ++ toString osz

/-- The failure-count line printed by check_result when some elements differ
(src/secure-linkage.cc lines 107-110). -/
def failuresMsg (pre : String) (nwrong osz : Nat) (firstWrong : Int) : String :=
  pre ++ ": " ++ toString nwrong ++ "/" ++ toString osz
      ++ " failures (first: " ++ toString firstWrong ++ ")"

/-- The number of indices i with output[i] != expected[i] (the nwrong counter
of check_result); sizes are equal when this is consulted. -/
def nwrongCount (expected output : List Int) : Nat :=
  ((List.zip output expected).filter (fun p => decide (p.1 ≠ p.2))).length

/-- The first index with output[i] != expected[i], or -1 when all match
(the first_wrong variable of check_result). -/
def firstWrongIdx (expected output : List Int) : Int :=
  let idx := (List.zip output expected).findIdx (fun p => decide (p.1 ≠ p.2))
  if idx = (List.zip output expected).length then -1 else (idx : Int)

/-- check_result (src/secure-linkage.cc lines 87-111), embedded as the list
of lines it prints: a dimension-error line when sizes differ (returning
before any element is compared), a failure-count line when nwrong > 0, and
nothing when output matches expected element for element. -/
def check_result (pre : String) (expected output : List Int) : List String :=
  if output.length ≠ expected.length then
    [dimErrorMsg pre expected.length output.length]
  else
    let nwrong := nwrongCount expected output
    if nwrong > 0 then
      [failuresMsg pre nwrong output.length (firstWrongIdx expected output)]
    else
      []

/-- The driver's flat left-matrix buffer: Linmat[i] = (i*17 % 31) & 1
(src/secure-linkage.cc lines 119-122). -/
def Linmat (i : Nat) : Int :=
  ((i * 17 % 31) &&& 1 : Nat)

/-- The driver's clks: the 2048 rows of Linmat, each of length 512
(src/secure-linkage.cc lines 160-166). -/
def driverClks : List (List Int) :=
  (List.range 2048).map (fun i => (List.range 512).map (fun j => Linmat (i * 512 + j)))

/-! ## Spec-modelled engine

The seclink engine is not part of src/; the definitions below are modelled
from the specification (sections 3, 4.1, 4.3-4.6). -/

/-- Modelled from the spec (section 7): the error taxonomy of the engine. -/
inductive SeclinkError where
  | InvalidParameters
  | DimensionMismatch
  | NoiseBudgetExhausted
  | KeyGenerationFailure
  | AllocationFailure
  deriving DecidableEq, Repr

/-- Modelled from the spec (section 3, EncryptedMatrix): the packing kind tag. -/
inductive PackingKind where
  | LeftRowPacked
  | RightColumnPacked
  | Product
  deriving DecidableEq, Repr

/-- Modelled from the spec (section 3, EncryptedMatrix): shape, packing kind,
and the slot contents.  A slot holds a plaintext residue in [0, t); slot i j
is the residue the packing conventions associate with position (i, j).  The
missing seclink ciphertext internals are abstracted to their decrypted slot
values (noise is not modelled). -/
structure EncMat where
  rows : Nat
  cols : Nat
  kind : PackingKind
  slot : Nat → Nat → Nat

/-- Sum of f j * g j over j < n (the inner-product reduction). -/
def dotN (f g : Nat → Int) : Nat → Int
  | 0 => 0
  | n + 1 => dotN f g n + f n * g n

/-- The exact integer matrix product: entry (i, c) of L·R with inner
dimension m.  This is the plaintext reference computation. -/
def matProd (L R : Nat → Nat → Int) (m i c : Nat) : Int :=
  dotN (fun j => L i j) (fun j => R j c) m

/-- Modelled from the spec (section 4.3, encrypt_left / seclink_encrypt_left,
missing from src/): row-oriented packing of a rows-by-cols matrix; slot (i, j)
of the result holds entry (i, j) reduced mod the plaintext modulus t. -/
def encrypt_left (t : Nat) (M : Nat → Nat → Int) (rows cols : Nat) : EncMat :=
  { rows := rows, cols := cols, kind := PackingKind.LeftRowPacked,
    slot := fun i j => (M i j % (t : Int)).toNat }

/-- Modelled from the spec (section 4.4, encrypt_right / seclink_encrypt_right,
missing from src/): column/broadcast packing of a cols-by-k probe matrix,
aligned with the left packing; slot (j, c) holds entry (j, c) mod t. -/
def encrypt_right (t : Nat) (M : Nat → Nat → Int) (cols k : Nat) : EncMat :=
  { rows := cols, cols := k, kind := PackingKind.RightColumnPacked,
    slot := fun j c => (M j c % (t : Int)).toNat }

/-- Modelled from the spec (section 4.5, multiply / seclink_multiply, missing
from src/): requires a left-packed and a right-packed operand with matching
inner dimension, else DimensionMismatch with no product object; on success,
result slot (i, c) holds the rotate-and-add reduction
(sum over j < cols of left slot (i,j) times right slot (j,c)) mod t. -/
def multiply (t : Nat) (l r : EncMat) : Except SeclinkError EncMat :=
  if l.kind = PackingKind.LeftRowPacked ∧ r.kind = PackingKind.RightColumnPacked
      ∧ r.rows = l.cols then
    Except.ok
      { rows := l.rows, cols := r.cols, kind := PackingKind.Product,
        slot := fun i c =>
          ((dotN (fun j => (l.slot i j : Int)) (fun j => (r.slot j c : Int)) l.cols)
            % (t : Int)).toNat }
  else
    Except.error SeclinkError.DimensionMismatch

/-- Modelled from the spec (section 4.6): a decrypted residue in [0, t) is
centered to the symmetric representative range. -/
def centerRep (t r : Nat) : Int :=
  if 2 * r < t then (r : Int) else (r : Int) - (t : Int)

/-- Modelled from the spec (section 4.6, decrypt / seclink_decrypt, missing
from src/): checks the caller-provided buffer shape against the matrix shape
(else DimensionMismatch), decrypts each slot and centers it to the symmetric
representative range. -/
def decrypt (t : Nat) (m : EncMat) (rows cols : Nat) :
    Except SeclinkError (Nat → Nat → Int) :=
  if m.rows = rows ∧ m.cols = cols then
    Except.ok (fun i c => centerRep t (m.slot i c))
  else
    Except.error SeclinkError.DimensionMismatch

/-- The full encode, homomorphic-multiply, decode pipeline:
decrypt (multiply (encrypt_left L) (encrypt_right R)). -/
def pipeline (t : Nat) (L R : Nat → Nat → Int) (rows cols k : Nat) :
    Except SeclinkError (Nat → Nat → Int) := do
  let l := encrypt_left t L rows cols
  let r := encrypt_right t R cols k
  let p ← multiply t l r
  decrypt t p rows k

/-- n is a power of two (executable: nonzero with a single set bit). -/
def isPow2 (n : Nat) : Bool :=
  n != 0 && n &&& (n - 1) == 0

/-- Modelled from the spec (section 4.1): t is a prime admitting full SIMD
batching for ring dimension n (a prime congruent to 1 mod 2n). -/
def batchingPrime (t n : Nat) : Bool :=
  decide (Nat.Prime t) && t % (2 * n) == 1

/-- Modelled from the spec (sections 3 and 4.1): the Context owns the scheme
parameters; derived encoder/evaluator state is abstracted away. -/
structure Context where
  ringDim : Nat
  plainMod : Nat
  deriving DecidableEq, Repr

/-- Modelled from the spec (section 4.1, create_context / seclink_init_ctx,
missing from src/): validates that the ring dimension is a supported power of
two and that the plaintext modulus is a prime admitting full SIMD batching
for it, failing with InvalidParameters otherwise.  (The further noise-budget
check on the derived modulus chain is not modelled; it can only turn more
inputs into InvalidParameters.) -/
def create_context (n t : Nat) : Except SeclinkError Context :=
  if isPow2 n && 1024 ≤ n && n ≤ 32768 && batchingPrime t n then
    Except.ok { ringDim := n, plainMod := t }
  else
    Except.error SeclinkError.InvalidParameters

/-- Entry (r, c) of a flat buffer read in row-major shape (rows, cols). -/
def readRowMajor (buf : Nat → Int) (cols r c : Nat) : Int :=
  buf (r * cols + c)

/-- Entry (r, c) of a flat buffer read in column-major shape (rows, cols). -/
def readColMajor (buf : Nat → Int) (rows r c : Nat) : Int :=
  buf (c * rows + r)

/-- The driver's left matrix as a 2048-by-512 row-major view of Linmat. -/
def driverL (i j : Nat) : Int := readRowMajor Linmat 512 i j

/-- The driver's right matrix: the buffer Rinmat = Linmat viewed with shape
(512, 2) so that its two columns are the first two rows of the left matrix
(src/secure-linkage.cc lines 123-124 and 147), i.e. a column-major view. -/
def driverR (j c : Nat) : Int := readColMajor Linmat 512 j c

/-! ## Helper lemmas -/

/-- A residue in [0, t) coming from a value of magnitude below t/2 centers
back to that value. -/
theorem centerRep_emod (t : Nat) (z : Int) (h : 2 * z.natAbs < t) :
    centerRep t ((z % (t : Int)).toNat) = z := by
  have ht : (0 : Int) < t := by omega
  have hnn : 0 ≤ z % (t : Int) := Int.emod_nonneg z (by omega)
  have hlt : z % (t : Int) < t := Int.emod_lt_of_pos z ht
  have htn : (((z % (t : Int)).toNat : Int)) = z % (t : Int) := Int.toNat_of_nonneg hnn
  have hcases : z % (t : Int) = z ∨ z % (t : Int) = z + t := by
    rcases le_or_lt 0 z with hz | hz
    · exact Or.inl (Int.emod_eq_of_lt hz (by omega))
    · refine Or.inr ?_
      have hadd : (z + t) % (t : Int) = z % (t : Int) := by
        simp [Int.add_mul_emod_self_left]
      rw [← hadd]
      exact Int.emod_eq_of_lt (by omega) (by omega)
  unfold centerRep
  generalize hw : z % (t : Int) = w at htn hcases hnn hlt ⊢
  split_ifs with h2 <;> omega

/-- Reducing both arguments mod t does not change an inner product mod t. -/
theorem dotN_emod (t : Nat) (f g : Nat → Int) (n : Nat) :
    (dotN (fun j => f j % (t : Int)) (fun j => g j % (t : Int)) n) % (t : Int)
      = (dotN f g n) % (t : Int) := by
  induction n with
  | zero => rfl
  | succ n ih =>
    show (dotN _ _ n + (f n % t) * (g n % t)) % (t:Int) = (dotN f g n + f n * g n) % (t:Int)
    rw [Int.add_emod, ih, ← Int.mul_emod, ← Int.add_emod]

theorem dotN_congr (f g f' g' : Nat → Int) (n : Nat)
    (hf : ∀ j, j < n → f j = f' j) (hg : ∀ j, j < n → g j = g' j) :
    dotN f g n = dotN f' g' n := by
  induction n with
  | zero => rfl
  | succ n ih =>
    show dotN f g n + f n * g n = dotN f' g' n + f' n * g' n
    rw [ih (fun j hj => hf j (by omega)) (fun j hj => hg j (by omega)),
      hf n (by omega), hg n (by omega)]

/-- The main correctness lemma for the spec-modelled engine: when every
exact inner product stays strictly below half the plaintext modulus in
magnitude, the pipeline succeeds and decrypts to the exact integer product. -/
theorem pipeline_spec (t rows cols k : Nat) (L R : Nat → Nat → Int)
    (hbound : ∀ i c, i < rows → c < k → 2 * (matProd L R cols i c).natAbs < t) :
    ∃ D, pipeline t L R rows cols k = Except.ok D ∧
      ∀ i c, i < rows → c < k → D i c = matProd L R cols i c := by
  refine ⟨fun i c => centerRep t
      ((dotN (fun j => (((L i j % (t:Int)).toNat : Nat) : Int))
             (fun j => (((R j c % (t:Int)).toNat : Nat) : Int)) cols % (t:Int)).toNat),
    ?_, ?_⟩
  · simp [pipeline, multiply, encrypt_left, encrypt_right, decrypt, Except.bind, bind]
  · intro i c hi hc
    have ht : 0 < t := by have := hbound i c hi hc; omega
    show centerRep t
      ((dotN (fun j => (((L i j % (t:Int)).toNat : Nat) : Int))
             (fun j => (((R j c % (t:Int)).toNat : Nat) : Int)) cols % (t:Int)).toNat)
        = matProd L R cols i c
    have hL : ∀ j, j < cols → (((L i j % (t:Int)).toNat : Nat) : Int) = L i j % (t:Int) :=
      fun j _ => Int.toNat_of_nonneg (Int.emod_nonneg _ (by omega))
    have hR : ∀ j, j < cols → (((R j c % (t:Int)).toNat : Nat) : Int) = R j c % (t:Int) :=
      fun j _ => Int.toNat_of_nonneg (Int.emod_nonneg _ (by omega))
    rw [dotN_congr _ _ _ _ cols hL hR, dotN_emod]
    exact centerRep_emod t _ (hbound i c hi hc)

/-- Inner products of equal-length tabulated vectors are dotN sums. -/
theorem innerProd_map_range (f g : Nat → Int) (n : Nat) :
    innerProd ((List.range n).map f) ((List.range n).map g) = dotN f g n := by
  induction n with
  | zero => rfl
  | succ n ih =>
    rw [List.range_succ, List.map_append, List.map_append]
    unfold innerProd
    rw [List.zipWith_append _ _ _ _ _ (by simp), List.sum_append]
    show innerProd _ _ + _ = dotN f g n + f n * g n
    rw [ih]
    simp

theorem mvpLoop_length (r1 r2 : List Int) (l : List (List Int)) :
    (mvpLoop r1 r2 l).length = 2 * l.length := by
  induction l with
  | nil => rfl
  | cons a l ih =>
    show (mvpLoop r1 r2 l).length + 1 + 1 = _
    rw [ih]
    simp
    omega

theorem mvpLoop_getD (r1 r2 : List Int) :
    ∀ (l : List (List Int)) (i : Nat), i < l.length →
      (mvpLoop r1 r2 l).getD (2 * i) 0 = innerProd (l.getD i []) r1 ∧
      (mvpLoop r1 r2 l).getD (2 * i + 1) 0 = innerProd (l.getD i []) r2 := by
  intro l
  induction l with
  | nil =>
    intro i hi
    simp at hi
  | cons a l ih =>
    intro i hi
    cases i with
    | zero => exact ⟨rfl, rfl⟩
    | succ i =>
      have h2 : 2 * (i + 1) = (2 * i) + 1 + 1 := by omega
      rw [h2]
      show (mvpLoop r1 r2 l).getD (2 * i) 0 = _ ∧ (mvpLoop r1 r2 l).getD (2 * i + 1) 0 = _
      exact ih i (by simpa using hi)


/-- An inner product of 0/1 vectors of length n lies in [0, n]. -/
theorem dotN_binary_bound (f g : Nat → Int) (n : Nat)
    (hf : ∀ j, j < n → f j = 0 ∨ f j = 1) (hg : ∀ j, j < n → g j = 0 ∨ g j = 1) :
    0 ≤ dotN f g n ∧ dotN f g n ≤ n := by
  induction n with
  | zero => exact ⟨le_refl 0, by norm_num [dotN]⟩
  | succ n ih =>
    obtain ⟨h0, h1⟩ := ih (fun j hj => hf j (by omega)) (fun j hj => hg j (by omega))
    have hfg : f n * g n = 0 ∨ f n * g n = 1 := by
      rcases hf n (by omega) with h | h <;> rcases hg n (by omega) with h' | h' <;>
        rw [h, h'] <;> norm_num
    show 0 ≤ dotN f g n + f n * g n ∧ dotN f g n + f n * g n ≤ (n + 1 : Nat)
    push_cast
    omega

/-- Every entry of the driver buffer Linmat is 0 or 1. -/
theorem Linmat_binary (i : Nat) : Linmat i = 0 ∨ Linmat i = 1 := by
  unfold Linmat
  rw [Nat.and_one_is_mod]
  have := Nat.mod_lt (i * 17 % 31) (show 0 < 2 by norm_num)
  interval_cases h : (i * 17 % 31) % 2
  · exact Or.inl rfl
  · exact Or.inr rfl

/-- C9: every element of the 2048-by-512 left matrix built by the driver
(Linmat[i] = (i*17 % 31) & 1) is 0 or 1; consequently every inner product of
two of its rows lies in [0, 512], and 512 is strictly below
plaintext_modulus / 2 = 40961 / 2. -/
theorem driver_matrix_binary_bounds :
    (∀ i, Linmat i = 0 ∨ Linmat i = 1) ∧
    (∀ i c, 0 ≤ matProd driverL driverR 512 i c ∧
            matProd driverL driverR 512 i c ≤ 512) ∧
    2 * 512 < 40961 := by
  refine ⟨Linmat_binary, ?_, by norm_num⟩
  intro i c
  exact dotN_binary_bound _ _ 512
    (fun j _ => Linmat_binary (i * 512 + j)) (fun j _ => Linmat_binary (c * 512 + j))

/-- C4: for a list of at least two equal-length CLKs, the driver reference
mat_vec_prod returns 2n values, where value 2i is the inner product of CLK i
with CLK 0 and value 2i+1 is the inner product of CLK i with CLK 1 — a fixed
2-column probe, never generalized beyond k = 2. -/
theorem mat_vec_prod_spec (clks : List (List Int)) (n : Nat)
    (hlen : 2 ≤ clks.length) (heq : ∀ c ∈ clks, c.length = n) :
    (mat_vec_prod clks).length = 2 * clks.length ∧
    ∀ i, i < clks.length →
      (mat_vec_prod clks).getD (2 * i) 0 = innerProd (clks.getD i []) (clks.getD 0 []) ∧
      (mat_vec_prod clks).getD (2 * i + 1) 0 = innerProd (clks.getD i []) (clks.getD 1 []) := by
  unfold mat_vec_prod
  exact ⟨mvpLoop_length _ _ _, fun i hi => mvpLoop_getD _ _ clks i hi⟩

/-- Witness for C4 on a concrete three-CLK input. -/
theorem mat_vec_prod_spec_witness :
    (mat_vec_prod [[1, 2], [3, 4], [5, 6]]).length = 2 * 3 ∧
    (mat_vec_prod [[1, 2], [3, 4], [5, 6]]).getD 2 0 = innerProd [3, 4] [1, 2] := by
  have h := mat_vec_prod_spec [[1, 2], [3, 4], [5, 6]] 2 (by norm_num) (by
    intro c hc
    fin_cases hc <;> rfl)
  refine ⟨h.1, ?_⟩
  have h2 := (h.2 1 (by norm_num)).1
  simpa using h2

/-- C6: multiplying matrices whose inner dimensions do not match fails with
DimensionMismatch; no product object is produced (the error constructor
carries none). -/
theorem multiply_dimension_mismatch (t : Nat) (l r : EncMat) (h : r.rows ≠ l.cols) :
    multiply t l r = Except.error SeclinkError.DimensionMismatch := by
  unfold multiply
  rw [if_neg]
  intro hc
  exact h hc.2.2

/-- Witness for C6 on concrete mismatched shapes (inner dimensions 4 and 3). -/
theorem multiply_dimension_mismatch_witness :
    multiply 7 (EncMat.mk 2 3 PackingKind.LeftRowPacked (fun _ _ => 0))
      (EncMat.mk 4 1 PackingKind.RightColumnPacked (fun _ _ => 0))
      = Except.error SeclinkError.DimensionMismatch :=
  multiply_dimension_mismatch 7 _ _ (by norm_num)

/-- C7: create_context rejects any ring dimension that is not a supported
power of two, and any plaintext modulus that is not a batching-compatible
prime for the chosen ring dimension, with InvalidParameters (no Context is
produced). -/
theorem create_context_invalid_parameters (n t : Nat)
    (h : ¬ (isPow2 n = true ∧ 1024 ≤ n ∧ n ≤ 32768) ∨ batchingPrime t n = false) :
    create_context n t = Except.error SeclinkError.InvalidParameters := by
  unfold create_context
  rw [if_neg]
  intro hc
  simp only [Bool.and_eq_true, decide_eq_true_eq] at hc
  obtain ⟨⟨⟨hp, h1⟩, h2⟩, hb⟩ := hc
  rcases h with h | h
  · exact h ⟨hp, h1, h2⟩
  · rw [h] at hb
    exact Bool.false_ne_true hb

/-- Witness for C7: ring dimension 3000 (not a power of two) is rejected. -/
theorem create_context_invalid_parameters_witness :
    create_context 3000 40961 = Except.error SeclinkError.InvalidParameters :=
  create_context_invalid_parameters 3000 40961 (Or.inl (by decide))


/-- When every clk fits inside both probe rows, the checked loop succeeds. -/
theorem mvpLoopChecked_isSome (r1 r2 : List Int) (l : List (List Int))
    (h : ∀ c ∈ l, c.length ≤ r1.length ∧ c.length ≤ r2.length) :
    (mvpLoopChecked r1 r2 l).isSome = true := by
  induction l with
  | nil => rfl
  | cons a l ih =>
    obtain ⟨h1, h2⟩ := h a (List.mem_cons_self a l)
    have hrest := ih (fun c hc => h c (List.mem_cons_of_mem a hc))
    show (do
      let x ← innerProdChecked a r1
      let y ← innerProdChecked a r2
      let tl ← mvpLoopChecked r1 r2 l
      pure (x :: y :: tl) : Option (List Int)).isSome = true
    rw [innerProdChecked, if_pos h1, innerProdChecked, if_pos h2]
    obtain ⟨tl, htl⟩ := Option.isSome_iff_exists.mp hrest
    rw [htl]
    rfl

/-- C8: mat_vec_prod reads clks[0], clks[1], and for each clk the first
length-of-clk entries of those two rows; with at least two equal-length CLKs
every access is in bounds (the checked embedding returns a value), while an
empty or single-element input makes the clks[0]/clks[1] indexing go out of
bounds (the checked embedding returns none). -/
theorem mat_vec_prod_access_safety (clks : List (List Int)) (n : Nat) :
    (2 ≤ clks.length → (∀ c ∈ clks, c.length = n) →
      (mat_vec_prodChecked clks).isSome = true) ∧
    (clks.length ≤ 1 → mat_vec_prodChecked clks = none) := by
  constructor
  · intro hlen heq
    rcases clks with _ | ⟨r1, _ | ⟨r2, rest⟩⟩
    · simp at hlen
    · simp at hlen
    · show (mvpLoopChecked r1 r2 (r1 :: r2 :: rest)).isSome = true
      apply mvpLoopChecked_isSome
      intro c hc
      have h1 := heq r1 (by simp)
      have h2 := heq r2 (by simp)
      have h3 := heq c hc
      omega
  · intro hlen
    rcases clks with _ | ⟨r1, _ | ⟨r2, rest⟩⟩
    · rfl
    · rfl
    · simp at hlen

/-- Witness for C8 on two one-element CLKs and on the empty input. -/
theorem mat_vec_prod_access_safety_witness :
    (mat_vec_prodChecked [[1], [2]]).isSome = true ∧
    mat_vec_prodChecked ([] : List (List Int)) = none := by
  constructor
  · refine (mat_vec_prod_access_safety [[1], [2]] 1).1 (by norm_num) ?_
    intro c hc
    fin_cases hc <;> rfl
  · exact (mat_vec_prod_access_safety [] 0).2 (by norm_num)

/-- The mismatch counter is zero exactly when the equal-length lists agree. -/
theorem nwrongCount_eq_zero_iff :
    ∀ (e o : List Int), o.length = e.length → (nwrongCount e o = 0 ↔ o = e) := by
  intro e
  induction e with
  | nil =>
    intro o h
    rw [List.length_nil] at h
    rw [List.length_eq_zero.mp h]
    simp [nwrongCount]
  | cons a e ih =>
    intro o h
    rcases o with _ | ⟨b, o⟩
    · simp at h
    · simp only [List.length_cons] at h
      have hih := ih o (by omega)
      by_cases hba : b = a
      · subst hba
        have hstep : nwrongCount (b :: e) (b :: o) = nwrongCount e o := by
          simp [nwrongCount, List.zip_cons_cons, List.filter_cons]
        rw [hstep, hih]
        simp
      · have hstep : nwrongCount (a :: e) (b :: o) = nwrongCount e o + 1 := by
          simp [nwrongCount, List.zip_cons_cons, List.filter_cons, hba]
        rw [hstep]
        simp [hba]

/-- C10: check_result prints nothing exactly when output equals expected
(same size, every element matching); when sizes differ it prints only the
dimension-error line, built from the two sizes before any element is
compared.  The embedding is pure, so the inputs are never modified. -/
theorem check_result_spec (pre : String) (expected output : List Int) :
    (check_result pre expected output = [] ↔ output = expected) ∧
    (output.length ≠ expected.length →
      check_result pre expected output = [dimErrorMsg pre expected.length output.length]) := by
  constructor
  · by_cases hlen : output.length = expected.length
    · unfold check_result
      rw [if_neg (fun hne => hne hlen)]
      by_cases hw : nwrongCount expected output = 0
      · rw [if_neg (by omega)]
        exact iff_of_true rfl ((nwrongCount_eq_zero_iff expected output hlen).mp hw)
      · rw [if_pos (by omega)]
        refine iff_of_false (by simp) (fun he => hw ?_)
        exact (nwrongCount_eq_zero_iff expected output hlen).mpr he
    · unfold check_result
      rw [if_pos hlen]
      exact iff_of_false (by simp) (fun he => hlen (by rw [he]))
  · intro h
    unfold check_result
    rw [if_pos h]

/-- Witness for C10: a matching pair prints nothing; a size mismatch prints
the dimension-error line. -/
theorem check_result_spec_witness :
    check_result ("ok") [1, 2] [1, 2] = [] ∧
    check_result ("bad") [1] [2, 3] = [dimErrorMsg ("bad") 1 2] := by
  constructor
  · exact (check_result_spec ("ok") [1, 2] [1, 2]).1.mpr rfl
  · exact (check_result_spec ("bad") [1] [2, 3]).2 (by norm_num)

/-- C3 as stated fails: reading the buffer passed to encrypt_right in
row-major (512, 2) shape does not make column 0 equal row 0 of L — already
at row index 2 the row-major entry is Linmat 4 = 0 while row 0 of L has
Linmat 2 = 1. -/
theorem right_reading_row_major_refuted :
    ¬ (∀ r, r < 512 →
        readRowMajor Linmat 2 r 0 = Linmat r ∧
        readRowMajor Linmat 2 r 1 = Linmat (512 + r)) := by
  intro h
  have h2 := (h 2 (by norm_num)).1
  have hne : readRowMajor Linmat 2 2 0 ≠ Linmat 2 := by decide
  exact hne h2

/-- C3 amended: the buffer passed to encrypt_right is read in column-major
(512, 2) shape, and then column 0 is row 0 of L (elements 0..511 of Linmat)
and column 1 is row 1 of L (elements 512..1023 of Linmat). -/
theorem right_reading_column_major (r : Nat) (h : r < 512) :
    readColMajor Linmat 512 r 0 = Linmat r ∧
    readColMajor Linmat 512 r 1 = Linmat (512 + r) := by
  unfold readColMajor
  norm_num

/-- Witness for the amended C3 at row index 5. -/
theorem right_reading_column_major_witness :
    5 < 512 ∧
    (readColMajor Linmat 512 5 0 = Linmat 5 ∧
     readColMajor Linmat 512 5 1 = Linmat 517) := by
  refine ⟨by norm_num, ?_⟩
  have h := right_reading_column_major 5 (by norm_num)
  simpa using h

/-- The single-matrix round trip decrypt(encrypt_left(M)) at position (i, j),
as an observable value (none when decrypt reports an error). -/
def roundTripEntry (t : Nat) (M : Nat → Nat → Int) (rows cols i j : Nat) : Option Int :=
  match decrypt t (encrypt_left t M rows cols) rows cols with
  | Except.ok D => some (D i j)
  | Except.error _ => none

/-- C5 as stated fails: with plaintext modulus 40961, the in-range entry
30000 ∈ [0, 40961) does not survive the round trip — decryption centers to
the symmetric range and returns 30000 - 40961 = -10961. -/
theorem round_trip_full_range_refuted :
    (0 : Int) ≤ 30000 ∧ (30000 : Int) < 40961 ∧
    roundTripEntry 40961 (fun _ _ => 30000) 1 1 0 0 ≠ some 30000 := by
  refine ⟨by norm_num, by norm_num, ?_⟩
  decide

/-- C5 amended: the round trip reproduces M exactly when every element lies
in [0, plaintext_modulus / 2), i.e. is a nonnegative value of magnitude
strictly below half the modulus. -/
theorem round_trip_half_range (t rows cols : Nat) (M : Nat → Nat → Int)
    (hM : ∀ i j, i < rows → j < cols → 0 ≤ M i j ∧ 2 * M i j < t) :
    ∀ i j, i < rows → j < cols → roundTripEntry t M rows cols i j = some (M i j) := by
  intro i j hi hj
  obtain ⟨h0, h1⟩ := hM i j hi hj
  unfold roundTripEntry decrypt encrypt_left
  rw [if_pos ⟨rfl, rfl⟩]
  show some (centerRep t ((M i j % (t : Int)).toNat)) = some (M i j)
  rw [centerRep_emod t (M i j) (by omega)]

/-- Witness for the amended C5: entry 7 with modulus 40961 round-trips. -/
theorem round_trip_half_range_witness :
    roundTripEntry 40961 (fun _ _ => 7) 1 1 0 0 = some 7 :=
  round_trip_half_range 40961 1 1 (fun _ _ => 7)
    (fun i j _ _ => by norm_num) 0 0 (by norm_num) (by norm_num)


/-- The decrypt(multiply(encrypt_left L, encrypt_right R)) pipeline at
position (i, c), as an observable value (none when any stage errors). -/
def pipelineEntry (t : Nat) (L R : Nat → Nat → Int) (rows cols k i c : Nat) : Option Int :=
  match pipeline t L R rows cols k with
  | Except.ok D => some (D i c)
  | Except.error _ => none

/-- C1: for compatible matrices whose entries and exact inner products all
have magnitude strictly below plaintext_modulus / 2, the full
encrypt-multiply-decrypt pipeline returns exactly the integer matrix product
L·R, element for element, equal to the plaintext reference matProd. -/
theorem multiplication_correctness (t rows cols k : Nat) (L R : Nat → Nat → Int)
    (hL : ∀ i j, i < rows → j < cols → 2 * (L i j).natAbs < t)
    (hR : ∀ j c, j < cols → c < k → 2 * (R j c).natAbs < t)
    (hP : ∀ i c, i < rows → c < k → 2 * (matProd L R cols i c).natAbs < t) :
    ∀ i c, i < rows → c < k →
      pipelineEntry t L R rows cols k i c = some (matProd L R cols i c) := by
  intro i c hi hc
  obtain ⟨D, hD, hval⟩ := pipeline_spec t rows cols k L R hP
  unfold pipelineEntry
  rw [hD]
  show some (D i c) = some (matProd L R cols i c)
  rw [hval i c hi hc]

/-- Witness for C1 on 1x1 matrices: 2 times 3 with modulus 20. -/
theorem multiplication_correctness_witness :
    pipelineEntry 20 (fun _ _ => 2) (fun _ _ => 3) 1 1 1 0 0
      = some (matProd (fun _ _ => 2) (fun _ _ => 3) 1 0 0) :=
  multiplication_correctness 20 1 1 1 (fun _ _ => 2) (fun _ _ => 3)
    (fun i j _ _ => by norm_num) (fun j c _ _ => by norm_num)
    (fun i c _ _ => by norm_num [matProd, dotN]) 0 0 (by norm_num) (by norm_num)

theorem driverClks_length : driverClks.length = 2048 := by
  unfold driverClks
  rw [List.length_map, List.length_range]

/-- Row i of the driver clks is the tabulated row i of Linmat. -/
theorem driverClks_getD (i : Nat) (hi : i < 2048) :
    driverClks.getD i [] = (List.range 512).map (fun j => Linmat (i * 512 + j)) := by
  unfold driverClks
  rw [List.getD_eq_getElem?_getD, List.getElem?_map, List.getElem?_range hi]
  simp

/-- Inner products of driver rows stay far below half the modulus. -/
theorem driver_prod_bound (i c : Nat) :
    2 * (matProd driverL driverR 512 i c).natAbs < 40961 := by
  obtain ⟨h0, h1⟩ := dotN_binary_bound (fun j => driverL i j) (fun j => driverR j c) 512
    (fun j _ => Linmat_binary (i * 512 + j)) (fun j _ => Linmat_binary (c * 512 + j))
  have h0' : 0 ≤ matProd driverL driverR 512 i c := h0
  have h1' : matProd driverL driverR 512 i c ≤ 512 := h1
  omega

/-- C2: in the driver scenario (modulus 40961, ring dimension 4096, the
2048x512 binary matrix from Linmat, probe columns equal to rows 0 and 1),
the pipeline decrypts at (i, c) to the exact integer inner product of row i
with row c, and the driver reference mat_vec_prod computes the same value at
flat position 2i + c. -/
theorem concrete_scenario_correct (i c : Nat) (hi : i < 2048) (hc : c < 2) :
    pipelineEntry 40961 driverL driverR 2048 512 2 i c
      = some (matProd driverL driverR 512 i c) ∧
    matProd driverL driverR 512 i c
      = innerProd (driverClks.getD i []) (driverClks.getD c []) ∧
    (mat_vec_prod driverClks).getD (2 * i + c) 0
      = matProd driverL driverR 512 i c := by
  have hilen : i < driverClks.length := by rw [driverClks_length]; exact hi
  refine ⟨?_, ?_, ?_⟩
  · obtain ⟨D, hD, hval⟩ := pipeline_spec 40961 2048 512 2 driverL driverR
      (fun i' c' _ _ => driver_prod_bound i' c')
    unfold pipelineEntry
    rw [hD]
    show some (D i c) = some (matProd driverL driverR 512 i c)
    rw [hval i c hi hc]
  · rw [driverClks_getD i hi, driverClks_getD c (by omega), innerProd_map_range]
    rfl
  · interval_cases c
    · have h := (mvpLoop_getD (driverClks.getD 0 []) (driverClks.getD 1 [])
        driverClks i hilen).1
      show (mvpLoop _ _ driverClks).getD (2 * i + 0) 0 = _
      rw [show 2 * i + 0 = 2 * i from rfl, h]
      rw [driverClks_getD i hi, driverClks_getD 0 (by norm_num), innerProd_map_range]
      rfl
    · have h := (mvpLoop_getD (driverClks.getD 0 []) (driverClks.getD 1 [])
        driverClks i hilen).2
      show (mvpLoop _ _ driverClks).getD (2 * i + 1) 0 = _
      rw [h]
      rw [driverClks_getD i hi, driverClks_getD 1 (by norm_num), innerProd_map_range]
      rfl

/-- Witness for C2 at output position (0, 1). -/
theorem concrete_scenario_correct_witness :
    pipelineEntry 40961 driverL driverR 2048 512 2 0 1
      = some (matProd driverL driverR 512 0 1) ∧
    matProd driverL driverR 512 0 1
      = innerProd (driverClks.getD 0 []) (driverClks.getD 1 []) ∧
    (mat_vec_prod driverClks).getD 1 0
      = matProd driverL driverR 512 0 1 := by
  have h := concrete_scenario_correct 0 1 (by norm_num) (by norm_num)
  exact ⟨h.1, h.2.1, by simpa using h.2.2⟩


end Seclink
